import Mathlib

set_option maxRecDepth 16000

/-!
Shallow embedding of the BT Payment Triage pipeline (src/app.py).

The program reads a pandas DataFrame from CSV, normalizes column headers,
derives per-row diagnostic strings, classifies rows as unverified, and
filters them by a fuzzy text query.  Cells of a DataFrame produced by
`pd.read_csv` are either strings, numbers, or the float NaN (the pandas
missing-value marker for blank cells).  We model a cell as a `PyVal`:
a string, the NaN marker, or a Python boolean (used for the derived
`unverified` column).  Python truthiness is modelled by `PyVal.truthy`
(note: `float("nan")` is truthy in Python), `str(...)` by `PyVal.toStr`
(note: `str(float("nan")) = "nan"`), and `pd.isna` by `PyVal.isna`.

A row is modelled as an association list from column name to `PyVal`
with unique keys (DataFrame columns are unique); `Series.get(col, default)`
is `rowGet`.

Unicode NFKD normalization (the first step of `normalize_columns`) is not
modelled: every ASCII character is its own NFKD normal form, so on ASCII
input — in particular on any output of the normalization pipeline itself —
NFKD is the identity, and the embedded `normalize_header` is the whole
pipeline.  Python `str.lower` agrees with `Char.toLower` on ASCII, and the
lowercasing step runs after all non-ASCII characters have been dropped.

Python `str.strip()` strips the six ASCII whitespace characters
(space, \t, \n, \r, \x0b, \x0c) from both ends; `isPyWhitespace` lists
exactly those (non-ASCII Unicode whitespace does not occur in the
fields the rules read after the ASCII-only header normalization).
-/

inductive PyVal where
  | str (s : String)
  | nan
  | bool (b : Bool)
deriving DecidableEq

/-- Python truthiness: `""` is falsy, any other string truthy; NaN is truthy. -/
def PyVal.truthy : PyVal → Bool
  | .str s => !(s == "")
  | .nan => true
  | .bool b => b

/-- Python `str(...)`: `str(float("nan")) = "nan"`. -/
def PyVal.toStr : PyVal → String
  | .str s => s
  | .nan => "nan"
  | .bool b => if b then "True" else "False"

/-- Python `pd.isna`. -/
def PyVal.isna : PyVal → Bool
  | .str _ => false
  | .nan => true
  | .bool _ => false

/-- Python `a or b`: `a` if truthy, else `b`. -/
def pyOr (a b : PyVal) : PyVal := if a.truthy then a else b

/-- A DataFrame row: association list from column name to cell value. -/
abbrev Record := List (String × PyVal)

/-- Embeds `pandas.Series.get(col, default)`. -/
def rowGet (row : Record) (c : String) (d : PyVal) : PyVal :=
  (row.lookup c).getD d

/-- The six characters Python `str.strip()` removes. -/
def isPyWhitespace (c : Char) : Bool :=
  c == ' ' || c == '\t' || c == '\n' || c == '\r' || c == '\x0b' || c == '\x0c'

/-- Drop elements satisfying `p` from both ends of a list. -/
def stripList (p : Char → Bool) (l : List Char) : List Char :=
  ((l.dropWhile p).reverse.dropWhile p).reverse

/-- Python `str.strip()`. -/
def pyStrip (s : String) : String := ⟨stripList isPyWhitespace s.data⟩

/-- Python `str.lower()` (ASCII; the source applies it to ASCII data). -/
def lowerStr (s : String) : String := ⟨s.data.map Char.toLower⟩

/-- Does `pat` occur as a contiguous subsequence of the list?  (Python
`pat in s` for strings.) -/
def hasSub (pat : List Char) : List Char → Bool
  | [] => pat.isEmpty
  | c :: t => pat.isPrefixOf (c :: t) || hasSub pat t

/-- Python `pat in s` (substring test). -/
def strContains (s pat : String) : Bool := hasSub pat.data s.data

/-- Python `s.startswith(pre)`. -/
def strStartsWith (s pre : String) : Bool := pre.data.isPrefixOf s.data

/-- The field accessor inside `derive_reasons`:
`val = lambda col: str(row.get(col, "") or "").strip()`. -/
def valField (row : Record) (c : String) : String :=
  pyStrip (pyOr (rowGet row c (.str "")) (.str "")).toStr

/-- Rule 1 of `derive_reasons`: payroll flag. -/
def rule1Msgs (row : Record) : List String :=
  if lowerStr (valField row "payroll_process") ∈ (["false", "0", "no"] : List String) then
    ["Payroll process flag is FALSE"]
  else []

/-- Rule 2: location status contains "missing gps". -/
def rule2Msgs (row : Record) : List String :=
  if strContains (lowerStr (valField row "location_status")) "missing gps" then
    ["Missing GPS"]
  else []

/-- Rule 3: hours status starts with "pending". -/
def rule3Msgs (row : Record) : List String :=
  if strStartsWith (lowerStr (valField row "hours_status")) "pending" then
    ["Hours status " ++ valField row "hours_status"]
  else []

/-- Rule 4: overall status starts with "pending". -/
def rule4Msgs (row : Record) : List String :=
  if strStartsWith (lowerStr (valField row "overall_status")) "pending" then
    ["Overall status " ++ valField row "overall_status"]
  else []

/-- Rule 5: non-zero billing delta. -/
def rule5Msgs (row : Record) : List String :=
  if valField row "delta_vs_billing_hh_mm_ss" ∈ (["", "0:00:00", "0:0:0", "0"] : List String) then
    []
  else
    ["Delta vs billing " ++ valField row "delta_vs_billing_hh_mm_ss"]

/-- Rule 6: signature present but timestamp missing. -/
def rule6Msgs (row : Record) : List String :=
  if !(valField row "parent_s_signature_approval_for_time_adjustment_signature" == "")
      && (valField row "parent_s_signature_approval_for_time_adjustment_signature_time" == "") then
    ["Parent signature present but missing time stamp"]
  else []

/-- Rule 7: aloha status present and not containing "ready". -/
def rule7Msgs (row : Record) : List String :=
  if !(valField row "aloha_status" == "")
      && !(strContains (lowerStr (valField row "aloha_status")) "ready") then
    ["Aloha status " ++ valField row "aloha_status"]
  else []

/-- The `reasons` list built by `derive_reasons`, in source order. -/
def reasonsList (row : Record) : List String :=
  rule1Msgs row ++ rule2Msgs row ++ rule3Msgs row ++ rule4Msgs row
    ++ rule5Msgs row ++ rule6Msgs row ++ rule7Msgs row

/-- Embeds `derive_reasons` (src/app.py lines 24-51). -/
def derive_reasons (row : Record) : String :=
  if reasonsList row = [] then "Ready to bill"
  else String.intercalate ", " (reasonsList row)

/-- The `clean` helper of `row_reason_from_notes_or_hours`. -/
def cleanVal (v : PyVal) : String :=
  if v.isna then "" else pyStrip v.toStr

/-- Embeds `row_reason_from_notes_or_hours` (src/app.py lines 54-65). -/
def row_reason_from_notes_or_hours (row : Record) : String :=
  let other := cleanVal (rowGet row "other_notes" (.str ""))
  if other ≠ "" then other
  else
    let hours := cleanVal (rowGet row "hours_status" (.str ""))
    if hours ≠ "" then hours else "No reason provided"

/-- Embeds `is_unverified` (src/app.py lines 68-72). -/
def is_unverified (row : Record) : Bool :=
  let v0 := rowGet row "aloha_status" (.str "")
  let v := if v0.isna then "" else lowerStr v0.toStr
  ["unverified", "cancelled"].any (fun t => strContains v t)

/-!
Header normalization, `normalize_columns` (src/app.py lines 9-21).
Per header the chain is: NFKD normalize; encode to ASCII ignoring errors
(drops every character with code point above 127, keeping ASCII control
characters); lowercase; replace every maximal run matching `[^0-9a-z]+`
with a single underscore; strip leading and trailing underscores.
NFKD is the identity on ASCII strings (see header comment), so
`normalize_header` embeds the pipeline for post-NFKD input.
-/

/-- The regex class `[0-9a-z]`. -/
def goodChar (c : Char) : Bool :=
  (48 ≤ c.toNat && c.toNat ≤ 57) || (97 ≤ c.toNat && c.toNat ≤ 122)

/-- Embeds `re.sub(r"[^0-9a-z]+", "_", ·)`: each maximal run of characters not in
`[0-9a-z]` becomes a single underscore.  Written as a one-pass state
machine: `inRun` records whether the previous character belonged to such a
run, so only the first character of each run emits an underscore. -/
def collapseSM (inRun : Bool) : List Char → List Char
  | [] => []
  | c :: t =>
    if goodChar c then c :: collapseSM false t
    else if inRun then collapseSM true t
    else '_' :: collapseSM true t

/-- The per-header chain on the character list: ASCII-encode ignoring
errors, lowercase, collapse `[^0-9a-z]+` runs, strip underscores. -/
def normList (d : List Char) : List Char :=
  stripList (fun c => c == '_')
    (collapseSM false ((d.filter (fun c => c.toNat ≤ 127)).map Char.toLower))

/-- Embeds `normalize_columns`, restricted to a single header (post-NFKD). -/
def normalize_header (s : String) : String :=
  ⟨normList s.data⟩

/-- Embeds `normalize_columns` applied to a whole header sequence. -/
def normalize_columns (headers : List String) : List String :=
  headers.map normalize_header

/-- Modelled from the spec (section 4.1, step (ii)): drop any character
outside the *printable* ASCII range (code points 32-126). -/
def specStep2 (s : String) : String :=
  ⟨s.data.filter (fun c => 32 ≤ c.toNat && c.toNat ≤ 126)⟩

/-- Amended step (ii): drop any character outside ASCII (code point > 127),
keeping control characters — what `encode("ascii", "ignore")` in the
code actually does. -/
def specStep2Amended (s : String) : String :=
  ⟨s.data.filter (fun c => c.toNat ≤ 127)⟩

/-- Spec step (iii): lowercase. -/
def specStep3 (s : String) : String := lowerStr s

/-- Spec step (iv), following the wording of the spec directly: on meeting a
character outside `[0-9a-z]`, consume the whole maximal run it starts and
replace it by a single underscore. -/
def collapseRuns : List Char → List Char
  | [] => []
  | c :: t =>
    if goodChar c then c :: collapseRuns t
    else '_' :: collapseRuns (t.dropWhile (fun x => !goodChar x))
termination_by l => l.length
decreasing_by
  · simp
  · have h := (List.dropWhile_sublist (l := t) (fun x => !goodChar x)).length_le
    simp
    omega

/-- Spec step (iv) on a string. -/
def specStep4 (s : String) : String := ⟨collapseRuns s.data⟩

/-- Spec step (v): strip leading/trailing underscores. -/
def specStep5 (s : String) : String := ⟨stripList (fun c => c == '_') s.data⟩

/-- Modelled from the spec (section 4.1): the five-step algorithm with
step (i) (NFKD) omitted as the identity on ASCII input. -/
def normalize_header_spec (s : String) : String :=
  specStep5 (specStep4 (specStep3 (specStep2 s)))

/-- The five-step algorithm with step (ii) amended to drop only
non-ASCII characters. -/
def normalize_header_specAmended (s : String) : String :=
  specStep5 (specStep4 (specStep3 (specStep2Amended s)))

/-!
The fuzzy matcher (src/app.py lines 133-156).  `row_matches` first tests
whether the lowercased, stripped query is a substring of the lowercased
`" | "`-join of the candidate columns; failing that it computes
`difflib.SequenceMatcher(None, key, v).ratio()` against each non-empty
lowercased column value and matches if some ratio is ≥ 0.6.

`SequenceMatcher` with no junk (`autojunk` only engages for strings of
length ≥ 200, longer than any value these claims touch) implements
Ratcliff/Obershelp: find the longest matching block — ties broken by the
smallest start in `a`, then the smallest start in `b` — recurse on the
pieces to its left and to its right, and sum the matched lengths `M`;
`ratio() = 2*M/T` with `T` the total length of both strings.  The
threshold test `2*M/T >= 0.6` is expressed exactly over naturals as
`3*T ≤ 10*M` (floating-point rounding could differ only when `2*M/T` is
within one ulp of 0.6, which does not arise at the evaluated inputs).
The recursion is written with a fuel parameter; `windowSum + 1` fuel
suffices because each recursive call strictly shrinks the window sum.
-/

/-- Length of the common prefix of two lists. -/
def commonPrefixLen : List Char → List Char → Nat
  | a :: as, b :: bs => if a == b then commonPrefixLen as bs + 1 else 0
  | _, _ => 0

/-- Length of the matching block of `a`, `b` starting at `i`, `j`, clipped
to the windows ending at `ahi`, `bhi`. -/
def matchLenAt (a b : List Char) (i j ahi bhi : Nat) : Nat :=
  min (commonPrefixLen (a.drop i) (b.drop j)) (min (ahi - i) (bhi - j))

/-- Embeds `SequenceMatcher.find_longest_match` on the window
`[alo, ahi) × [blo, bhi)` (no junk): the longest matching block, ties
broken by smallest `i` then smallest `j`. -/
def findLongest (a b : List Char) (alo ahi blo bhi : Nat) : Nat × Nat × Nat :=
  (List.range' alo (ahi - alo)).foldl
    (fun best i =>
      (List.range' blo (bhi - blo)).foldl
        (fun best j =>
          let k := matchLenAt a b i j ahi bhi
          if best.2.2 < k then (i, j, k) else best)
        best)
    (alo, blo, 0)

/-- Total matched length `M` over the Ratcliff/Obershelp block
decomposition of the window (fueled recursion). -/
def mtAux (a b : List Char) : Nat → Nat → Nat → Nat → Nat → Nat
  | 0, _, _, _, _ => 0
  | fuel + 1, alo, ahi, blo, bhi =>
    let t := findLongest a b alo ahi blo bhi
    if t.2.2 = 0 then 0
    else
      mtAux a b fuel alo t.1 blo t.2.1 + t.2.2
        + mtAux a b fuel (t.1 + t.2.2) ahi (t.2.1 + t.2.2) bhi

/-- Computes `M`: the sum of the sizes of all matching blocks of
`SequenceMatcher(None, a, b)`. -/
def totalMatched (a b : List Char) : Nat :=
  mtAux a b (a.length + b.length + 1) 0 a.length 0 b.length

/-- Tests `SequenceMatcher(None, a, b).ratio() >= 0.6`, i.e. `2*M/T ≥ 3/5`. -/
def ratioGe06 (a b : List Char) : Bool :=
  decide (3 * (a.length + b.length) ≤ 10 * totalMatched a b)

/-- Embeds `str(row.get(c, ""))` — the cell text used by the search. -/
def colText (row : Record) (c : String) : String :=
  (rowGet row c (.str "")).toStr

/-- Embeds `row_matches` (src/app.py lines 140-154); `key` is the already
lowercased and stripped query. -/
def row_matches (key : String) (searchCols : List String) (row : Record) : Bool :=
  let text := lowerStr (String.intercalate " | " (searchCols.map (fun c => colText row c)))
  if strContains text key then true
  else
    searchCols.any (fun c =>
      let v := lowerStr (colText row c)
      if v == "" then false
      else ratioGe06 key.data v.data)

/-- The keyword filter step of `main` (src/app.py lines 133-156): when the
keyword is non-empty, keep the rows matching the lowercased, stripped key. -/
def applySearch (keyword : String) (searchCols : List String)
    (rows : List Record) : List Record :=
  if keyword == "" then rows
  else rows.filter (row_matches (pyStrip (lowerStr keyword)) searchCols)

/-!
The pipeline of `main` (src/app.py lines 119-156): assign the derived
columns on every row, then select the rows whose `unverified` column is
true (`df[df["unverified"]]`), then optionally filter by the fuzzy query.
Column assignment (`df["name"] = ...`) overwrites an existing column in
place and otherwise appends it at the end; rows are assumed to have
unique column names (DataFrame columns after `read_csv`).
-/

/-- Embeds `df[name] = value` for one row: replace in place, or append. -/
def setCol (row : Record) (k : String) (v : PyVal) : Record :=
  if (row.lookup k).isSome then
    row.map (fun p => if p.1 == k then (k, v) else p)
  else row ++ [(k, v)]

/-- The four derived-column assignments of src/app.py lines 119-122
applied to one row (each derivation reads only original fields). -/
def augmentRow (r : Record) : Record :=
  setCol (setCol (setCol (setCol r
    "not_paid_reason" (.str (derive_reasons r)))
    "unverified" (.bool (is_unverified r)))
    "unverified_reason" (.str (row_reason_from_notes_or_hours r)))
    "reason_session_unverified" (.str (row_reason_from_notes_or_hours r))

/-- Embeds the `df.apply(...)` column assignments over the whole dataset. -/
def augmentAll (rows : List Record) : List Record := rows.map augmentRow

/-- Embeds `unverified_df = df[df["unverified"]]`: rows whose `unverified`
column holds a true value. -/
def unverifiedView (rows : List Record) : List Record :=
  (augmentAll rows).filter (fun r => (rowGet r "unverified" (.bool false)).truthy)

/-- Modelled from the spec (section 4.4, the wording of C7): the lowercase
value of the `aloha_status` field, with a missing key or a null value
treated as the empty string. -/
def alohaLowerView (row : Record) : String :=
  match row.lookup "aloha_status" with
  | none => ""
  | some v => if v.isna then "" else lowerStr v.toStr

/-- No two consecutive underscores occur in the list (used to
characterize the output of the run-collapsing step). -/
def noDoubleU : List Char → Bool
  | a :: b :: t => !(a == '_' && b == '_') && noDoubleU (b :: t)
  | _ => true

/-!
Sanity evaluations of the embedded definitions.
-/

example : derive_reasons [("payroll_process", .str "FALSE"),
    ("hours_status", .str "Pending review"), ("aloha_status", .str "Ready"),
    ("other_notes", .str "")]
    = "Payroll process flag is FALSE, Hours status Pending review" := by rfl

example : derive_reasons [("delta_vs_billing_hh_mm_ss", PyVal.nan)]
    = "Delta vs billing nan" := by rfl

example : normalize_header "a\tb" = "a_b" := by rfl
example : normalize_header "Appt. Date (Süd)" = "appt_date_sd" := by rfl
example : totalMatched "jon".data "john smith".data = 3 := by decide
example : ratioGe06 "jon".data "john".data = true := by decide
example : ratioGe06 "jon".data "john smith".data = false := by decide

/-!
Claim theorems.
-/

/-- C1: when rule 1 fires, the overall status is exactly "Pending" (so
rule 4 fires), and no other rule contributes a message, `derive_reasons`
returns exactly "Payroll process flag is FALSE, Overall status Pending",
payroll message first; and whenever no rule fires the result is the
literal "Ready to bill".  A rule block is empty exactly when its
condition fails, so the `= []` hypotheses say the other conditions do
not hold. -/
theorem claim_C1_rule_order :
    (∀ row : Record,
      lowerStr (valField row "payroll_process") ∈ (["false", "0", "no"] : List String) →
      valField row "overall_status" = "Pending" →
      rule2Msgs row = [] → rule3Msgs row = [] → rule5Msgs row = [] →
      rule6Msgs row = [] → rule7Msgs row = [] →
      derive_reasons row = "Payroll process flag is FALSE, Overall status Pending")
    ∧ (∀ row : Record, reasonsList row = [] →
      derive_reasons row = "Ready to bill") := by
  constructor
  · intro row h1 h4 e2 e3 e5 e6 e7
    have e1 : rule1Msgs row = ["Payroll process flag is FALSE"] := by
      unfold rule1Msgs
      rw [if_pos h1]
    have e4 : rule4Msgs row = ["Overall status Pending"] := by
      unfold rule4Msgs
      rw [h4]
      rfl
    unfold derive_reasons reasonsList
    rw [e1, e2, e3, e4, e5, e6, e7]
    rfl
  · intro row h
    unfold derive_reasons
    rw [if_pos h]

/-- Witness for C1 at concrete rows. -/
theorem claim_C1_witness :
    derive_reasons [("payroll_process", PyVal.str "FALSE"),
        ("overall_status", PyVal.str "Pending")]
      = "Payroll process flag is FALSE, Overall status Pending"
    ∧ derive_reasons [] = "Ready to bill" :=
  ⟨claim_C1_rule_order.1 _ (by decide) (by decide) (by decide) (by decide)
      (by decide) (by decide) (by decide),
   claim_C1_rule_order.2 [] (by decide)⟩

/-- C2: the end-to-end scenario row `{payroll_process: "FALSE",
hours_status: "Pending review", aloha_status: "Ready", other_notes: ""}`
gets `not_paid_reason = "Payroll process flag is FALSE, Hours status
Pending review"`, `unverified = false`, and `unverified_reason =
"Pending review"` (fallback to `hours_status` because `other_notes` is
empty). -/
theorem claim_C2_end_to_end :
    derive_reasons [("payroll_process", PyVal.str "FALSE"),
        ("hours_status", PyVal.str "Pending review"),
        ("aloha_status", PyVal.str "Ready"), ("other_notes", PyVal.str "")]
      = "Payroll process flag is FALSE, Hours status Pending review"
    ∧ is_unverified [("payroll_process", PyVal.str "FALSE"),
        ("hours_status", PyVal.str "Pending review"),
        ("aloha_status", PyVal.str "Ready"), ("other_notes", PyVal.str "")]
      = false
    ∧ row_reason_from_notes_or_hours [("payroll_process", PyVal.str "FALSE"),
        ("hours_status", PyVal.str "Pending review"),
        ("aloha_status", PyVal.str "Ready"), ("other_notes", PyVal.str "")]
      = "Pending review" :=
  ⟨rfl, rfl, rfl⟩

/-- C3 evaluation: a missing key and an empty string both leave the row
"Ready to bill", but a null (NaN) cell — what pandas stores for a blank
CSV cell — is stringified to "nan" by `str(row.get(col, "") or "")`
(NaN is truthy in Python), so the delta rule fires with the bogus
message "Delta vs billing nan": null is NOT treated like the empty
string, refuting the identical-treatment part of the claim. -/
theorem claim_C3_null_divergence :
    derive_reasons [] = "Ready to bill"
    ∧ derive_reasons [("delta_vs_billing_hh_mm_ss", PyVal.str "")] = "Ready to bill"
    ∧ derive_reasons [("delta_vs_billing_hh_mm_ss", PyVal.nan)]
      = "Delta vs billing nan" :=
  ⟨rfl, rfl, rfl⟩

/-- C6: a `delta_vs_billing_hh_mm_ss` value trimming to one of the
zero spellings (or empty) contributes no delta reason, while a value
trimming to "0:00:01" puts "Delta vs billing 0:00:01" among the
reasons. -/
theorem claim_C6_delta_boundary :
    (∀ row : Record,
      valField row "delta_vs_billing_hh_mm_ss"
          ∈ (["", "0:00:00", "0:0:0", "0"] : List String) →
      rule5Msgs row = [])
    ∧ (∀ row : Record,
      valField row "delta_vs_billing_hh_mm_ss" = "0:00:01" →
      "Delta vs billing 0:00:01" ∈ reasonsList row) := by
  constructor
  · intro row h
    unfold rule5Msgs
    rw [if_pos h]
  · intro row h
    have e5 : rule5Msgs row = ["Delta vs billing 0:00:01"] := by
      unfold rule5Msgs
      rw [h]
      rfl
    unfold reasonsList
    rw [e5]
    simp

/-- Witness for C6: a padded zero spelling contributes nothing; the
one-second delta contributes its exact message. -/
theorem claim_C6_witness :
    rule5Msgs [("delta_vs_billing_hh_mm_ss", PyVal.str " 0:0:0 ")] = []
    ∧ "Delta vs billing 0:00:01"
        ∈ reasonsList [("delta_vs_billing_hh_mm_ss", PyVal.str "0:00:01")] :=
  ⟨claim_C6_delta_boundary.1 _ (by decide),
   claim_C6_delta_boundary.2 _ (by decide)⟩

/-- C7: `is_unverified` is true exactly when the lowercase
`aloha_status` value — empty for a missing key or a null cell — contains
"unverified" or "cancelled" as a substring; in particular it is true for
"Cancelled by client" and false for "Ready", a missing field, and a null
field. -/
theorem claim_C7_unverified :
    (∀ row : Record, is_unverified row = true ↔
      (strContains (alohaLowerView row) "unverified" = true
        ∨ strContains (alohaLowerView row) "cancelled" = true))
    ∧ is_unverified [("aloha_status", PyVal.str "Cancelled by client")] = true
    ∧ is_unverified [("aloha_status", PyVal.str "Ready")] = false
    ∧ is_unverified [] = false
    ∧ is_unverified [("aloha_status", PyVal.nan)] = false := by
  refine ⟨?_, rfl, rfl, rfl, rfl⟩
  intro row
  unfold is_unverified alohaLowerView rowGet
  have h0 : lowerStr "" = "" := by decide
  cases h : row.lookup "aloha_status" with
  | none => simp [PyVal.isna, PyVal.toStr, h0]
  | some v => cases v <;> simp [PyVal.isna, PyVal.toStr, h0]

/-- Empty pattern: the empty string is a substring of every list. -/
theorem hasSub_nil (l : List Char) : hasSub [] l = true := by
  cases l <;> simp [hasSub, List.isPrefixOf]

/-- The empty string is a substring of every string. -/
theorem strContains_empty (s : String) : strContains s "" = true := by
  show hasSub "".data s.data = true
  have h : "".data = ([] : List Char) := rfl
  rw [h]
  exact hasSub_nil _

/-- With an empty key, `row_matches` accepts every row: the empty key is
a substring of the concatenated column text. -/
theorem row_matches_empty_key (cols : List String) (row : Record) :
    row_matches "" cols row = true := by
  simp [row_matches, strContains_empty]

/-- C10: a non-empty query that lowercases and strips to the empty
string matches every record, so the filtered view is the whole
unverified set. -/
theorem claim_C10_blank_query (kw : String) (hne : kw ≠ "")
    (hblank : pyStrip (lowerStr kw) = "") :
    ∀ (cols : List String) (rows : List Record),
      applySearch kw cols (unverifiedView rows) = unverifiedView rows := by
  intro cols rows
  unfold applySearch
  have h1 : (kw == "") = false := by
    simp only [beq_eq_false_iff_ne, ne_eq]
    exact hne
  rw [h1, hblank]
  simp only [Bool.false_eq_true, if_false]
  exact List.filter_eq_self.mpr (fun r _ => row_matches_empty_key cols r)

/-- Witness for C10: the all-whitespace query `" "`. -/
theorem claim_C10_witness :
    (" " ≠ "") ∧ pyStrip (lowerStr " ") = ""
    ∧ applySearch " " ["staff_name"]
        (unverifiedView [[("aloha_status", PyVal.str "Cancelled")]])
      = unverifiedView [[("aloha_status", PyVal.str "Cancelled")]] :=
  ⟨by decide, by decide,
   claim_C10_blank_query " " (by decide) (by decide) ["staff_name"]
     [[("aloha_status", PyVal.str "Cancelled")]]⟩

/-- C4 counterexample: for the query "jon" and the candidate value
"John Smith", the Ratcliff/Obershelp ratio is 6/13 < 0.6, "jon" is not a
substring of the column text, and `row_matches` rejects the record —
refuting the claim that the similarity tier includes it. -/
theorem claim_C4_counterexample :
    ratioGe06 "jon".data (lowerStr "John Smith").data = false
    ∧ row_matches "jon" ["staff_name"]
        [("staff_name", PyVal.str "John Smith")] = false := by
  constructor
  · decide
  · decide

/-- C4 amended: for the pair ("jon", "john smith") the total matched
length is 3 of 13 characters, so the ratio 6/13 is below the 0.6
threshold; "jon" is not a substring of the concatenated column text
either, so the record is NOT included in the filtered result. -/
theorem claim_C4_low_ratio :
    totalMatched "jon".data (lowerStr "John Smith").data = 3
    ∧ "jon".data.length + (lowerStr "John Smith").data.length = 13
    ∧ ratioGe06 "jon".data (lowerStr "John Smith").data = false
    ∧ strContains (lowerStr "John Smith") "jon" = false
    ∧ row_matches "jon" ["staff_name"]
        [("staff_name", PyVal.str "John Smith")] = false := by
  refine ⟨by decide, by decide, by decide, by decide, by decide⟩

/-- C9: the pipeline is order-preserving: the augmented set is the
row-wise image of the input (same length, i-th output from i-th input);
the unverified view is a sublist (subsequence, in order) of the
augmented set holding exactly the rows whose `unverified` column is
true; and the fuzzy filter yields a sublist of the unverified view. -/
theorem claim_C9_order_preserving :
    ∀ (rows : List Record) (kw : String) (cols : List String),
      (∀ i : Nat, (augmentAll rows)[i]? = (rows[i]?).map augmentRow)
      ∧ (unverifiedView rows).Sublist (augmentAll rows)
      ∧ (∀ r : Record, r ∈ unverifiedView rows ↔
          r ∈ augmentAll rows ∧ (rowGet r "unverified" (.bool false)).truthy = true)
      ∧ (applySearch kw cols (unverifiedView rows)).Sublist (unverifiedView rows) := by
  intro rows kw cols
  refine ⟨?_, ?_, ?_, ?_⟩
  · intro i
    unfold augmentAll
    simp
  · unfold unverifiedView
    exact List.filter_sublist _
  · intro r
    unfold unverifiedView
    simp [List.mem_filter]
  · unfold applySearch
    split
    · exact List.Sublist.refl _
    · exact List.filter_sublist _

/-!
Helper lemmas for the header-normalization claims.
-/

/-- Skipping a run: once inside a bad run, `collapseSM` behaves like a
fresh start after dropping the rest of the run. -/
theorem collapseSM_true_dropWhile (l : List Char) :
    collapseSM true l = collapseSM false (l.dropWhile fun x => !goodChar x) := by
  induction l with
  | nil => rfl
  | cons c t ih =>
    by_cases h : goodChar c = true
    · simp [collapseSM, List.dropWhile_cons, h]
    · simp [collapseSM, List.dropWhile_cons, h, ih]

/-- The run-consuming formulation of step (iv) agrees with the one-pass
state machine. -/
theorem collapseRuns_eq_collapseSM (l : List Char) :
    collapseRuns l = collapseSM false l := by
  induction l using collapseRuns.induct with
  | case1 => simp [collapseRuns, collapseSM]
  | case2 c t h ih => simp [collapseRuns, collapseSM, h, ih]
  | case3 c t h ih =>
    simp [collapseRuns, collapseSM, h, ih, collapseSM_true_dropWhile]

/-- C5 counterexample: the header "a\tb" (ASCII, hence NFKD-invariant)
normalizes to "a_b" — the tab character survives the ASCII encoding step
(its code point is below 128) and becomes an underscore — while the
five-step spec algorithm, which drops characters outside the
*printable* ASCII range, yields "ab". -/
theorem claim_C5_counterexample :
    normalize_header "a\tb" = "a_b"
    ∧ normalize_header_spec "a\tb" = "ab"
    ∧ ("a_b" : String) ≠ "ab" := by
  refine ⟨rfl, ?_, by decide⟩
  unfold normalize_header_spec specStep2 specStep3 specStep4 specStep5
  rw [collapseRuns_eq_collapseSM]
  decide

/-- C5 amended: `normalize_header` equals the five-step spec algorithm
with step (ii) amended to drop only the characters outside ASCII
(code point > 127): control characters are kept and each becomes (part
of) an underscore run in step (iv). -/
theorem claim_C5_amended_pipeline (s : String) :
    normalize_header s = normalize_header_specAmended s := by
  unfold normalize_header normList normalize_header_specAmended specStep2Amended
    specStep3 specStep4 specStep5 lowerStr
  rw [collapseRuns_eq_collapseSM]

/-- Characters matched by `[0-9a-z]` are not the underscore. -/
theorem goodChar_ne_underscore {c : Char} (h : goodChar c = true) : c ≠ '_' := by
  intro e
  subst e
  exact absurd h (by decide)

/-- Every character of a collapsed list is in `[0-9a-z]` or is an
underscore. -/
theorem mem_collapseSM {c : Char} :
    ∀ (b : Bool) (l : List Char), c ∈ collapseSM b l → goodChar c = true ∨ c = '_' := by
  intro b l
  induction l generalizing b with
  | nil => intro h; simp [collapseSM] at h
  | cons a t ih =>
    intro h
    by_cases ha : goodChar a = true
    · simp [collapseSM, ha] at h
      cases h with
      | inl h => subst h; exact Or.inl ha
      | inr h => exact ih false h
    · cases b with
      | true =>
        simp [collapseSM, ha] at h
        exact ih true h
      | false =>
        simp [collapseSM, ha] at h
        cases h with
        | inl h => exact Or.inr h
        | inr h => exact ih true h

/-- In the in-run state, the next emitted character is in `[0-9a-z]`. -/
theorem head_collapseSM_true :
    ∀ (l : List Char) (c : Char), (collapseSM true l).head? = some c → goodChar c = true := by
  intro l
  induction l with
  | nil => intro c h; simp [collapseSM] at h
  | cons a t ih =>
    intro c h
    by_cases ha : goodChar a = true
    · simp [collapseSM, ha] at h
      subst h
      exact ha
    · simp [collapseSM, ha] at h
      exact ih c h

/-- The tail of a `noDoubleU` list is `noDoubleU`. -/
theorem noDoubleU_cons {a : Char} {t : List Char}
    (h : noDoubleU (a :: t) = true) : noDoubleU t = true := by
  cases t with
  | nil => rfl
  | cons b u =>
    simp [noDoubleU] at h
    simp [noDoubleU, h.2]

/-- Collapsed lists never contain two consecutive underscores. -/
theorem noDoubleU_collapseSM : ∀ (b : Bool) (l : List Char),
    noDoubleU (collapseSM b l) = true := by
  intro b l
  induction l generalizing b with
  | nil => rfl
  | cons a t ih =>
    by_cases ha : goodChar a = true
    · show noDoubleU (collapseSM b (a :: t)) = true
      rw [collapseSM, if_pos ha]
      cases hc : collapseSM false t with
      | nil => rfl
      | cons x r =>
        have hx : noDoubleU (x :: r) = true := by rw [← hc]; exact ih false
        have hane : (a == '_') = false :=
          beq_eq_false_iff_ne.mpr (goodChar_ne_underscore ha)
        simp [noDoubleU, hx, hane]
    · cases b with
      | true =>
        show noDoubleU (collapseSM true (a :: t)) = true
        rw [collapseSM, if_neg (by simp [ha]), if_pos rfl]
        exact ih true
      | false =>
        show noDoubleU (collapseSM false (a :: t)) = true
        rw [collapseSM, if_neg (by simp [ha])]
        simp only [Bool.false_eq_true, if_false]
        cases hc : collapseSM true t with
        | nil => rfl
        | cons x r =>
          have hx : noDoubleU (x :: r) = true := by rw [← hc]; exact ih true
          have hgx : goodChar x = true := head_collapseSM_true t x (by rw [hc]; rfl)
          have hxne : (x == '_') = false :=
            beq_eq_false_iff_ne.mpr (goodChar_ne_underscore hgx)
          simp [noDoubleU, hx, hxne]

/-- Property `noDoubleU` passes to the right part of an append. -/
theorem noDoubleU_append_right :
    ∀ {x y : List Char}, noDoubleU (x ++ y) = true → noDoubleU y = true := by
  intro x
  induction x with
  | nil => intro y h; exact h
  | cons a t ih => intro y h; exact ih (noDoubleU_cons h)

/-- Property `noDoubleU` passes to the left part of an append. -/
theorem noDoubleU_append_left :
    ∀ {x y : List Char}, noDoubleU (x ++ y) = true → noDoubleU x = true := by
  intro x
  induction x with
  | nil => intro y _; rfl
  | cons a t ih =>
    intro y h
    cases t with
    | nil => rfl
    | cons b u =>
      simp only [List.cons_append] at h
      have h1 : noDoubleU (a :: b :: (u ++ y)) = true := h
      simp [noDoubleU] at h1
      have h2 : noDoubleU (b :: u) = true := ih (y := y) (by simpa [noDoubleU] using h1.2)
      simp [noDoubleU, h1.1, h2]

/-- On a list whose characters are all in `[0-9a-z]` or underscores and
which has no two consecutive underscores, the run-collapsing pass is the
identity (in the in-run state this additionally needs the head not to be
an underscore). -/
theorem collapseSM_id : ∀ l : List Char,
    (∀ c ∈ l, goodChar c = true ∨ c = '_') → noDoubleU l = true →
    collapseSM false l = l
      ∧ ((∀ c, l.head? = some c → c ≠ '_') → collapseSM true l = l) := by
  intro l
  induction l with
  | nil => exact fun _ _ => ⟨rfl, fun _ => rfl⟩
  | cons a t ih =>
    intro hcs hnd
    have hcst : ∀ c ∈ t, goodChar c = true ∨ c = '_' :=
      fun c hc => hcs c (List.mem_cons_of_mem _ hc)
    obtain ⟨ihf, iht⟩ := ih hcst (noDoubleU_cons hnd)
    by_cases ha : goodChar a = true
    · constructor
      · show collapseSM false (a :: t) = a :: t
        rw [collapseSM, if_pos ha, ihf]
      · intro _
        show collapseSM true (a :: t) = a :: t
        rw [collapseSM, if_pos ha, ihf]
    · have ha' : a = '_' := (hcs a (List.mem_cons_self a t)).resolve_left ha
      constructor
      · have hh : ∀ c, t.head? = some c → c ≠ '_' := by
          intro c hc hcu
          cases t with
          | nil => simp at hc
          | cons b u =>
            simp at hc
            subst hc
            subst hcu
            rw [ha'] at hnd
            simp [noDoubleU] at hnd
        show collapseSM false (a :: t) = a :: t
        rw [collapseSM, if_neg (by simp [ha])]
        simp only [Bool.false_eq_true, if_false]
        rw [iht hh, ha']
      · intro hhead
        exact absurd ha' (hhead a rfl)

/-- Function `stripList` removes a prefix and a suffix of the list. -/
theorem stripList_decomp (p : Char → Bool) (l : List Char) :
    ∃ x y, l = x ++ stripList p l ++ y := by
  refine ⟨l.takeWhile p, ((l.dropWhile p).reverse.takeWhile p).reverse, ?_⟩
  unfold stripList
  conv_lhs => rw [← List.takeWhile_append_dropWhile (p := p) (l := l)]
  rw [List.append_assoc]
  congr 1
  conv_lhs => rw [← List.reverse_reverse (l.dropWhile p),
    ← List.takeWhile_append_dropWhile (p := p) (l := (l.dropWhile p).reverse)]
  rw [List.reverse_append]

/-- The head of a dropWhile result does not satisfy the predicate. -/
theorem head_dropWhile_false (p : Char → Bool) (l : List Char) {c : Char}
    (h : (l.dropWhile p).head? = some c) : p c = false := by
  have hm := List.head?_dropWhile_not p l
  rw [h] at hm
  exact hm

/-- The head of a stripped list does not satisfy the predicate. -/
theorem stripList_head (p : Char → Bool) (l : List Char) {c : Char}
    (h : (stripList p l).head? = some c) : p c = false := by
  unfold stripList at h
  set z := (l.dropWhile p).reverse with hz
  rw [List.head?_reverse] at h
  cases hw : z.dropWhile p with
  | nil => rw [hw] at h; simp at h
  | cons w ws =>
    rw [hw] at h
    have hzdec := List.takeWhile_append_dropWhile (p := p) (l := z)
    have hlast : (z.dropWhile p).getLast? = z.getLast? := by
      conv_rhs => rw [← hzdec]
      rw [List.getLast?_append, hw]
      cases hgl : (w :: ws).getLast? with
      | none =>
        rw [List.getLast?_eq_getLast (w :: ws) (by simp)] at hgl
        exact absurd hgl (by simp)
      | some d => rfl
    rw [hw] at hlast
    rw [hlast] at h
    rw [hz, List.getLast?_reverse] at h
    exact head_dropWhile_false p l h

/-- The last element of a stripped list does not satisfy the predicate. -/
theorem stripList_last (p : Char → Bool) (l : List Char) {c : Char}
    (h : (stripList p l).getLast? = some c) : p c = false := by
  unfold stripList at h
  rw [List.getLast?_reverse] at h
  exact head_dropWhile_false p _ h

/-- Function `dropWhile` is the identity when the head does not satisfy the
predicate. -/
theorem dropWhile_eq_self_of_head {p : Char → Bool} {l : List Char}
    (h : ∀ c, l.head? = some c → p c = false) : l.dropWhile p = l := by
  cases l with
  | nil => rfl
  | cons a t =>
    rw [List.dropWhile_cons_of_neg]
    simp [h a rfl]

/-- Function `stripList` is the identity on lists whose two ends do not satisfy
the predicate. -/
theorem stripList_eq_self {p : Char → Bool} {l : List Char}
    (hh : ∀ c, l.head? = some c → p c = false)
    (hl : ∀ c, l.getLast? = some c → p c = false) : stripList p l = l := by
  unfold stripList
  rw [dropWhile_eq_self_of_head hh]
  rw [dropWhile_eq_self_of_head (by intro c hc; rw [List.head?_reverse] at hc; exact hl c hc)]
  exact List.reverse_reverse l

/-- ASCII lowering fixes characters in `[0-9a-z]` and the underscore. -/
theorem toLower_fix {c : Char} (h : goodChar c = true ∨ c = '_') :
    Char.toLower c = c := by
  cases h with
  | inr h => subst h; decide
  | inl h =>
    have hb : (48 ≤ c.toNat ∧ c.toNat ≤ 57) ∨ (97 ≤ c.toNat ∧ c.toNat ≤ 122) := by
      simpa [goodChar, Bool.or_eq_true, Bool.and_eq_true, decide_eq_true_eq] using h
    simp only [Char.toLower]
    rw [if_neg]
    omega

/-- Characters in `[0-9a-z]` and the underscore are ASCII. -/
theorem good_or_underscore_le127 {c : Char} (h : goodChar c = true ∨ c = '_') :
    c.toNat ≤ 127 := by
  cases h with
  | inr h => subst h; decide
  | inl h =>
    have hb : (48 ≤ c.toNat ∧ c.toNat ≤ 57) ∨ (97 ≤ c.toNat ∧ c.toNat ≤ 122) := by
      simpa [goodChar, Bool.or_eq_true, Bool.and_eq_true, decide_eq_true_eq] using h
    omega

/-- Pointwise-fixed maps are the identity. -/
theorem map_toLower_id {l : List Char} (h : ∀ c ∈ l, Char.toLower c = c) :
    l.map Char.toLower = l := by
  induction l with
  | nil => rfl
  | cons a t ih =>
    simp only [List.map_cons, h a (by simp)]
    rw [ih (fun c hc => h c (by simp [hc]))]

/-- The output of the collapse-then-strip stage is canonical: characters
in `[0-9a-z]` or underscores, no two consecutive underscores, and no
underscore at either end. -/
theorem normalized_props (m : List Char) :
    (∀ c ∈ stripList (fun c => c == '_') (collapseSM false m), goodChar c = true ∨ c = '_')
    ∧ noDoubleU (stripList (fun c => c == '_') (collapseSM false m)) = true
    ∧ (∀ c, (stripList (fun c => c == '_') (collapseSM false m)).head? = some c →
        (c == '_') = false)
    ∧ (∀ c, (stripList (fun c => c == '_') (collapseSM false m)).getLast? = some c →
        (c == '_') = false) := by
  obtain ⟨xa, xb, hdec⟩ := stripList_decomp (fun c => c == '_') (collapseSM false m)
  refine ⟨?_, ?_, ?_, ?_⟩
  · intro c hc
    have hm : c ∈ collapseSM false m := by
      rw [hdec]
      simp [hc]
    exact mem_collapseSM false m hm
  · have h0 : noDoubleU (collapseSM false m) = true := noDoubleU_collapseSM false m
    rw [hdec, List.append_assoc] at h0
    exact noDoubleU_append_left (noDoubleU_append_right h0)
  · intro c hc
    exact stripList_head (fun x => x == '_') (collapseSM false m) hc
  · intro c hc
    exact stripList_last (fun x => x == '_') (collapseSM false m) hc

/-- The list-level normalization stage is a fixpoint on its own output. -/
theorem norm_list_idem (m : List Char) :
    stripList (fun c => c == '_')
      (collapseSM false
        (((stripList (fun c => c == '_') (collapseSM false m)).filter
            (fun c => c.toNat ≤ 127)).map Char.toLower))
    = stripList (fun c => c == '_') (collapseSM false m) := by
  obtain ⟨hcs, hnd, hh, hl⟩ := normalized_props m
  have hfilter : (stripList (fun c => c == '_') (collapseSM false m)).filter
      (fun c => decide (c.toNat ≤ 127))
      = stripList (fun c => c == '_') (collapseSM false m) :=
    List.filter_eq_self.mpr
      (fun c hc => by simpa using good_or_underscore_le127 (hcs c hc))
  rw [hfilter, map_toLower_id (fun c hc => toLower_fix (hcs c hc))]
  have hid := (collapseSM_id _ hcs hnd).1
  rw [hid]
  exact stripList_eq_self hh hl

set_option maxHeartbeats 2000000 in
/-- The per-header list pipeline is a fixpoint on its own output. -/
theorem normList_idem (d : List Char) : normList (normList d) = normList d := by
  unfold normList
  exact norm_list_idem ((d.filter fun c => c.toNat ≤ 127).map Char.toLower)

/-- C8: the header-normalization function is idempotent — normalizing an
already-normalized header returns it unchanged.  (NFKD, the unmodelled
first step, is the identity on the ASCII output of the pipeline, so this
covers the full function.) -/
theorem claim_C8_idempotent (s : String) :
    normalize_header (normalize_header s) = normalize_header s :=
  congrArg String.mk (normList_idem s.data)
